import Mathlib

/-!
Shallow embedding of the workspace-discovery core of cargo
(`src/cargo/core/workspace.rs`): manifest data model, `find_root`,
`find_members` / `find_path_deps`, `is_excluded`, `validate`, and the
`current` / `current_opt` accessors, together with theorems settling the
specification claims about them.

Modelling conventions:
- A filesystem path is a list of components of an absolute, rooted path
  (`[]` is the filesystem root `/`).
- The filesystem / manifest-loading collaborator is an association list
  from a directory to the manifest record parsed from the `Cargo.toml`
  it contains.  A directory absent from the list has no (readable)
  manifest; loading its manifest fails with `manifestIoError`.
- `find_path_deps` is recursive through the filesystem graph; the
  embedding uses explicit fuel, with a distinguished `outOfFuel` error,
  and proves that enough fuel (any amount above the number of
  not-yet-member manifest directories) never runs out.
-/

namespace CargoWs

/-- A filesystem path, as the list of components of an absolute path. -/
abbrev FsPath := List String

/-- The fixed manifest filename. -/
def cargoToml : String := "Cargo.toml"

/-- Modelled from the spec: lexical path normalization
(`util::paths::normalize_path`, a helper of this repository that is not under
`src/`): `.` components are dropped and `..` pops the previously accumulated
component. -/
def normalize (p : FsPath) : FsPath :=
  p.foldl
    (fun ret c =>
      if c = "." then ret
      else if c = ".." then ret.dropLast
      else ret ++ [c])
    []

/-- Modelled from the spec: the directory-ancestry chain of a path
(`util::paths::ancestors`, not under `src/`): the path itself, then each
parent, down to the filesystem root `[]`. -/
def ancestors (p : FsPath) : List FsPath :=
  (List.range (p.length + 1)).reverse.map (fun n => p.take n)

/-- `WorkspaceConfig` from `workspace.rs`: either a `[workspace]` root
declaration (with optional member patterns and exclude patterns), or a
member declaration with an optional `package.workspace` pointer.
Patterns and pointers are relative paths, kept as component lists. -/
inductive WorkspaceConfig : Type
  | Root (members : Option (List FsPath)) (exclude : List FsPath)
  | Member (root : Option FsPath)
  deriving DecidableEq

/-- The package payload of a concrete (non-virtual) manifest: its name and
the target directories of its local-path dependencies (the only dependency
source kind that participates in member discovery). -/
structure PackageData : Type where
  name : String
  pathDeps : List FsPath
  deriving DecidableEq

/-- A parsed manifest record (`MaybePackage` in `workspace.rs`): its
workspace configuration plus either a concrete package (`pkg = some _`)
or nothing for a virtual manifest (`pkg = none`). -/
structure Manifest : Type where
  config : WorkspaceConfig
  pkg : Option PackageData
  deriving DecidableEq

/-- The modelled filesystem / manifest loader: directories paired with the
manifest record parsed from the `Cargo.toml` they contain. -/
abbrev FS := List (FsPath × Manifest)

/-- All the errors surfaced by the embedded functions. -/
inductive WsError : Type
  | outOfFuel
  | manifestIoError (manifest : FsPath)
  | rootNotRoot (root : FsPath)
  | noRootConfigured (current root : FsPath)
  | multipleRoots (roots : List FsPath)
  | duplicateName (name : String) (prev member : FsPath)
  | wrongWorkspace (member expected actual : FsPath)
  | notHierarchicallyBelow (member root : FsPath)
  | notAMember (current root : FsPath)
  | virtualManifest (manifest : FsPath)
  deriving DecidableEq

deriving instance DecidableEq for Except

/-- Look up the manifest record of a directory. -/
def lookupDir (fs : FS) (d : FsPath) : Option Manifest :=
  (fs.find? (fun e => e.1 == d)).map Prod.snd

/-- `Packages::load`, with the memoizing cache elided (loading is pure in
the model, so caching is observationally transparent): the manifest is
keyed by its containing directory; a missing entry is an I/O error. -/
def load (fs : FS) (manifest_path : FsPath) : Except WsError Manifest :=
  match lookupDir fs manifest_path.dropLast with
  | some m => .ok m
  | none => .error (.manifestIoError manifest_path)

/-- `is_excluded` from `workspace.rs`: excluded iff some exclude pattern
joined to the root directory is a path-prefix of the manifest path, unless
some member pattern joined to the root directory is a path-prefix of it
(an explicit member is never excluded). -/
def is_excluded (members : Option (List FsPath)) (exclude : List FsPath)
    (root_path : FsPath) (manifest_path : FsPath) : Bool :=
  let excluded := exclude.any (fun ex => (root_path ++ ex).isPrefixOf manifest_path)
  let explicit_member :=
    match members with
    | some ms => ms.any (fun mem => (root_path ++ mem).isPrefixOf manifest_path)
    | none => false
  !explicit_member && excluded

/-- `read_root_pointer` from `find_root`: resolve a `package.workspace`
pointer relative to the member manifest's directory, append the manifest
filename, and normalize. -/
def read_root_pointer (member_manifest : FsPath) (root_link : FsPath) : FsPath :=
  normalize (member_manifest.dropLast ++ root_link ++ [cargoToml])

/-- The ancestor-climbing loop of `find_root`: at each ancestor directory
holding a manifest, a root declaration that does not exclude the original
manifest (or a member pointer) ends the search; anything else continues. -/
def findRootLoop (fs : FS) (orig : FsPath) : List FsPath → Except WsError (Option FsPath)
  | [] => .ok none
  | dir :: rest =>
    match lookupDir fs dir with
    | none => findRootLoop fs orig rest
    | some m =>
      match m.config with
      | .Root ms ex =>
        if is_excluded ms ex dir orig then findRootLoop fs orig rest
        else .ok (some (dir ++ [cargoToml]))
      | .Member (some ptr) => .ok (some (read_root_pointer (dir ++ [cargoToml]) ptr))
      | .Member none => findRootLoop fs orig rest

/-- `Workspace::find_root`: a root declaration is its own root, an explicit
pointer is resolved immediately, and otherwise the ancestry is climbed
starting two levels above the manifest path. -/
def findRoot (fs : FS) (manifest_path : FsPath) : Except WsError (Option FsPath) :=
  match load fs manifest_path with
  | .error e => .error e
  | .ok current =>
    match current.config with
    | .Root _ _ => .ok (some manifest_path)
    | .Member (some ptr) => .ok (some (read_root_pointer manifest_path ptr))
    | .Member none => findRootLoop fs manifest_path ((ancestors manifest_path).drop 2)

/-- One step of glob-component matching, parameterized by the recursive
call (`*` matches any sequence, `?` any one character, anything else
itself). -/
def globStep (r : List Char → List Char → Bool) : List Char → List Char → Bool
  | [], [] => true
  | '*' :: ps, [] => r ps []
  | '*' :: ps, c :: cs => r ps (c :: cs) || r ('*' :: ps) cs
  | '?' :: ps, _ :: cs => r ps cs
  | pc :: ps, c :: cs => pc == c && r ps cs
  | _ :: _, [] => false
  | [], _ :: _ => false

/-- Fuelled glob-component matcher (the recursion shrinks the combined
length, so `globMatch` supplies enough fuel). -/
def globMatchN : Nat → List Char → List Char → Bool
  | 0 => fun _ _ => false
  | n + 1 => globStep (globMatchN n)

/-- Modelled from the spec: the external `glob` crate's match of one
pattern component against one path component. -/
def globMatch (p s : String) : Bool :=
  globMatchN (p.length + s.length + 1) p.data s.data

/-- Modelled from the spec: glob match of a whole pattern path against a
directory, component by component. -/
def globMatchPath (pat cand : FsPath) : Bool :=
  pat.length == cand.length && (pat.zip cand).all (fun pc => globMatch pc.1 pc.2)

/-- `expand_member_path` from `workspace.rs`, with the external `glob`
walk modelled over the manifest directories of the modelled filesystem:
the directories the joined pattern matches. -/
def expand_member_path (fs : FS) (path : FsPath) : List FsPath :=
  (fs.map Prod.fst).filter (fun d => globMatchPath path d)

/-- The member-pattern expansion loop of `find_members`: each pattern is
joined to the root directory and glob-expanded; a pattern with zero glob
matches is retained literally. -/
def expandedList (fs : FS) (root : FsPath) (list : List FsPath) : List FsPath :=
  list.flatMap
    (fun path =>
      let pathbuf := root ++ path
      let expanded_paths := expand_member_path fs pathbuf
      if expanded_paths.isEmpty then [pathbuf] else expanded_paths)

/-- The candidate manifest paths fed by `find_members` to `find_path_deps`
for an explicit member list: each expanded directory with the manifest
filename appended. -/
def memberManifestCandidates (fs : FS) (root_manifest : FsPath) (list : List FsPath) : List FsPath :=
  (expandedList fs root_manifest.dropLast list).map (fun path => path ++ [cargoToml])

/-- The body of `find_path_deps`, parameterized by the recursive call `r`:
membership check, foreign-path-dependency check, exclusion check, push,
then recursion into local-path dependencies (via `fpdList`). -/
def fpdList (r : List FsPath → FsPath → Bool → Except WsError (List FsPath)) (b : Bool) :
    List FsPath → List FsPath → Except WsError (List FsPath)
  | members, [] => .ok members
  | members, c :: cs =>
    match r members c b with
    | .error e => .error e
    | .ok ms => fpdList r b ms cs

/-- One unfolding of `Workspace::find_path_deps` (the recursive call is the
parameter `r`).  In every invocation reached from `find_members` the
workspace's `root_manifest` field is `some root_manifest`, so the foreign
check compares against `some root_manifest` and the workspace root
directory is `root_manifest.dropLast`. -/
def fpdStep (fs : FS) (root_manifest : FsPath)
    (r : List FsPath → FsPath → Bool → Except WsError (List FsPath))
    (members : List FsPath) (manifest_path : FsPath) (is_path_dep : Bool) :
    Except WsError (List FsPath) :=
  let mp := normalize manifest_path
  if members.contains mp then .ok members
  else
    let foreignCheck : Except WsError Bool :=
      if is_path_dep && !(root_manifest.dropLast.isPrefixOf mp.dropLast) then
        match findRoot fs mp with
        | .error e => .error e
        | .ok root => .ok (root != some root_manifest)
      else .ok false
    match foreignCheck with
    | .error e => .error e
    | .ok true => .ok members
    | .ok false =>
      match load fs root_manifest with
      | .error e => .error e
      | .ok rootRec =>
        let excluded :=
          match rootRec.config with
          | .Root ms ex => is_excluded ms ex root_manifest.dropLast mp
          | .Member _ => false
        if excluded then .ok members
        else
          match load fs mp with
          | .error e => .error e
          | .ok record =>
            match record.pkg with
            | none => .ok (members ++ [mp])
            | some pkg =>
              let candidates := pkg.pathDeps.map (fun p => p ++ [cargoToml])
              fpdList r true (members ++ [mp]) candidates

/-- Fuelled `Workspace::find_path_deps`. -/
def findPathDepsF (fs : FS) (root_manifest : FsPath) :
    Nat → List FsPath → FsPath → Bool → Except WsError (List FsPath)
  | 0 => fun _ _ _ => .error .outOfFuel
  | fuel + 1 => fpdStep fs root_manifest (findPathDepsF fs root_manifest fuel)

/-- The canonical fuel: strictly more than the number of manifest
directories of the filesystem, which is proved sufficient. -/
def defaultFuel (fs : FS) : Nat := fs.length + 2

/-- `Workspace::find_members`: no root means the member set is exactly the
entry manifest; otherwise the root's member patterns are expanded and fed
to `find_path_deps`, followed by the root manifest itself. -/
def findMembers (fs : FS) (current_manifest : FsPath) (root_manifest : Option FsPath) :
    Except WsError (List FsPath) :=
  match root_manifest with
  | none => .ok [current_manifest]
  | some rootM =>
    match load fs rootM with
    | .error e => .error e
    | .ok root =>
      match root.config with
      | .Member _ => .error (.rootNotRoot rootM)
      | .Root membersOpt _ =>
        let initial : Except WsError (List FsPath) :=
          match membersOpt with
          | none => .ok []
          | some list =>
            fpdList (findPathDepsF fs rootM (defaultFuel fs)) false []
              (memberManifestCandidates fs rootM list)
        match initial with
        | .error e => .error e
        | .ok ms => findPathDepsF fs rootM (defaultFuel fs) ms rootM false

/-- The root-collection / name-uniqueness loop of `Workspace::validate`:
for each member, its directory is recorded when its own config is a root
declaration, and a concrete package whose name was already recorded for an
earlier member is a fatal duplicate-name error (virtual manifests are
skipped by the name check). -/
def collectRootsNames (fs : FS) :
    List FsPath → List FsPath → List (String × FsPath) → Except WsError (List FsPath)
  | [], roots, _ => .ok roots
  | member :: rest, roots, names =>
    match load fs member with
    | .error e => .error e
    | .ok package =>
      let roots' :=
        match package.config with
        | .Root _ _ => roots ++ [member.dropLast]
        | .Member _ => roots
      match package.pkg with
      | none => collectRootsNames fs rest roots' names
      | some p =>
        match names.find? (fun kv => kv.1 == p.name) with
        | some prev => .error (.duplicateName p.name prev.2 member)
        | none => collectRootsNames fs rest roots' (names ++ [(p.name, member)])

/-- The hierarchical-containment loop of `validate`: every member's
independently recomputed root must equal the workspace root. -/
def checkContainment (fs : FS) (root_manifest : FsPath) :
    List FsPath → Except WsError Unit
  | [] => .ok ()
  | member :: rest =>
    match findRoot fs member with
    | .error e => .error e
    | .ok root =>
      if root == some root_manifest then checkContainment fs root_manifest rest
      else
        match root with
        | some actual => .error (.wrongWorkspace member root_manifest actual)
        | none => .error (.notHierarchicallyBelow member root_manifest)

/-- `Workspace::validate` (the non-fatal profile-override warnings, which
never affect the result, are elided).  The `notAMember` error abstracts the
suggestion text of the original message. -/
def validate (fs : FS) (current_manifest : FsPath) (root_manifest : Option FsPath)
    (members : List FsPath) : Except WsError Unit :=
  match root_manifest with
  | none => .ok ()
  | some rootM =>
    match collectRootsNames fs members [] [] with
    | .error e => .error e
    | .ok roots =>
      if roots.length = 0 then .error (.noRootConfigured current_manifest rootM)
      else if roots.length = 1 then
        match checkContainment fs rootM members with
        | .error e => .error e
        | .ok _ =>
          if members.contains current_manifest then .ok ()
          else .error (.notAMember current_manifest rootM)
      else .error (.multipleRoots roots)

/-- `Workspace::current_opt`: the record cached for the entry manifest's
directory, when it is a concrete package. -/
def current_opt (fs : FS) (current_manifest : FsPath) : Option PackageData :=
  match lookupDir fs current_manifest.dropLast with
  | some m => m.pkg
  | none => none

/-- `Workspace::current`: the entry package, or an error when the entry
manifest is virtual. -/
def current (fs : FS) (current_manifest : FsPath) : Except WsError PackageData :=
  match current_opt fs current_manifest with
  | some p => .ok p
  | none => .error (.virtualManifest current_manifest)

/-- The observable outcome of workspace construction. -/
structure WorkspaceResult : Type where
  root_manifest : Option FsPath
  members : List FsPath
  deriving DecidableEq

/-- `Workspace::new`: find the root, collect the members, validate. -/
def wsNew (fs : FS) (manifest_path : FsPath) : Except WsError WorkspaceResult :=
  match findRoot fs manifest_path with
  | .error e => .error e
  | .ok root =>
    match findMembers fs manifest_path root with
    | .error e => .error e
    | .ok members =>
      match validate fs manifest_path root members with
      | .error e => .error e
      | .ok _ => .ok ⟨root, members⟩

/-- The number of manifest directories whose manifest path is not yet a
member: the termination measure of `find_path_deps`. -/
def countFree (fs : FS) (members : List FsPath) : Nat :=
  ((fs.map Prod.fst).filter (fun d => !(members.contains (d ++ [cargoToml])))).length

/-- `skipsDir fs orig d` holds when the ancestor directory `d` does not end
the root search for `orig`: it has no manifest, a pointerless member
manifest, or a root manifest that excludes `orig`. -/
def skipsDir (fs : FS) (orig : FsPath) (d : FsPath) : Bool :=
  match lookupDir fs d with
  | none => true
  | some m =>
    match m.config with
    | .Root ms ex => is_excluded ms ex d orig
    | .Member none => true
    | .Member (some _) => false

theorem isPrefixOf_true_iff : ∀ (l₁ l₂ : List String), l₁.isPrefixOf l₂ = true ↔ l₁ <+: l₂
  | [], l₂ => by
      simp [List.isPrefixOf]
  | a :: t, [] => by
      simp [List.isPrefixOf]
  | a :: t, b :: u => by
      simp [List.isPrefixOf, List.cons_prefix_cons, isPrefixOf_true_iff t u]

/-- C1: `is_excluded` reports a candidate manifest path excluded exactly
when no explicit member pattern (joined to the root directory) is a path
prefix of it and some exclude pattern (joined to the root directory) is a
path prefix of it; in particular a candidate matching an explicit member
pattern is never excluded, even when it also matches an exclude pattern. -/
theorem c1_is_excluded_characterization (ms : Option (List FsPath)) (ex : List FsPath)
    (root cand : FsPath) :
    is_excluded ms ex root cand = true ↔
      (¬ ∃ l mem, ms = some l ∧ mem ∈ l ∧ (root ++ mem) <+: cand) ∧
        ∃ e, e ∈ ex ∧ (root ++ e) <+: cand := by
  cases ms with
  | none =>
      simp [is_excluded, List.any_eq_true, isPrefixOf_true_iff]
  | some l =>
      simp [is_excluded, List.any_eq_true, isPrefixOf_true_iff]

/-- C6: a manifest whose configuration is a member declaration carrying an
explicit root pointer makes `findRoot` return the pointer resolved against
the manifest's directory, with the manifest filename appended and the
result normalized — whatever the rest of the filesystem (in particular any
root declaration in an ancestor directory) contains, so no ancestry
climbing takes place. -/
theorem c6_member_pointer_short_circuits (fs : FS) (mp ptr : FsPath) (m : Manifest)
    (hload : load fs mp = .ok m) (hcfg : m.config = .Member (some ptr)) :
    findRoot fs mp = .ok (some (normalize (mp.dropLast ++ ptr ++ [cargoToml]))) := by
  simp [findRoot, hload, hcfg, read_root_pointer]

/-- Fixture for the C6 witness: a member manifest at `a/b` pointing at
`..`, with an unrelated root declaration in the ancestor directory `a`. -/
def fs6 : FS :=
  [ (["a"], ⟨.Root none [], none⟩),
    (["a", "b"], ⟨.Member (some [".."]), some ⟨"x", []⟩⟩) ]

theorem c6_member_pointer_short_circuits_witness :
    load fs6 ["a", "b", "Cargo.toml"] = .ok ⟨.Member (some [".."]), some ⟨"x", []⟩⟩ ∧
      findRoot fs6 ["a", "b", "Cargo.toml"] =
        .ok (some (normalize (["a", "b"] ++ [".."] ++ [cargoToml]))) :=
  ⟨by decide,
    c6_member_pointer_short_circuits fs6 ["a", "b", "Cargo.toml"] [".."]
      ⟨.Member (some [".."]), some ⟨"x", []⟩⟩ (by decide) rfl⟩

/-- C9: when the entry manifest's directory has a cached record, `current`
returns an error exactly when that record is a virtual manifest, and
returns a concrete package `p` exactly when `current_opt` returns `p`. -/
theorem c9_current_error_iff_virtual (fs : FS) (cur : FsPath) (m : Manifest)
    (h : lookupDir fs cur.dropLast = some m) :
    ((∃ e, current fs cur = .error e) ↔ m.pkg = none) ∧
      (∀ p, current fs cur = .ok p ↔ current_opt fs cur = some p) := by
  have hopt : current_opt fs cur = m.pkg := by simp [current_opt, h]
  cases hp : m.pkg <;> simp [current, hopt, hp]

/-- Fixture for the C9 witness: a virtual manifest at `v`. -/
def fs9 : FS := [ (["v"], ⟨.Root none [], none⟩) ]

theorem c9_current_error_iff_virtual_witness :
    lookupDir fs9 (["v", "Cargo.toml"] : FsPath).dropLast = some ⟨.Root none [], none⟩ ∧
      ((∃ e, current fs9 ["v", "Cargo.toml"] = .error e) ↔
        (⟨.Root none [], none⟩ : Manifest).pkg = none) :=
  ⟨by decide,
    (c9_current_error_iff_virtual fs9 ["v", "Cargo.toml"] ⟨.Root none [], none⟩ (by decide)).1⟩

/-- Fixture for C10: the filesystem contains the directory
`root/crates/foo`, which the glob pattern `crates/*` matches. -/
def fs10 : FS :=
  [ (["root"], ⟨.Root (some [["crates", "*"]]) [["crates"]], none⟩),
    (["root", "crates", "foo"], ⟨.Member none, some ⟨"foo", []⟩⟩) ]

/-- C10: the explicit-member override of `is_excluded` is a literal
path-prefix test with no glob expansion: for the member pattern
`crates/*`, whose glob expansion does match the directory
`root/crates/foo` (so its manifest would be a member), the manifest path
`root/crates/foo/Cargo.toml` is nonetheless reported excluded when it
matches the exclude pattern `crates`, because the literal component `*`
never equals `foo`. -/
theorem c10_wildcard_override_is_literal :
    is_excluded (some [["crates", "*"]]) [["crates"]] ["root"]
        ["root", "crates", "foo", "Cargo.toml"] = true ∧
      globMatchPath (["root"] ++ ["crates", "*"]) ["root", "crates", "foo"] = true ∧
      expand_member_path fs10 (["root"] ++ ["crates", "*"]) = [["root", "crates", "foo"]] := by
  decide

/-- C4: a `find_path_deps` call with `is_path_dep = true` on a manifest
whose directory is not nested under the workspace root directory and whose
re-run of `findRoot` yields anything other than the workspace root returns
the member set unchanged: the foreign path dependency is neither added nor
recursed into, so a path dependency that is its own workspace root never
enters the member set. -/
theorem c4_foreign_path_dep_not_added (fs : FS) (rootM : FsPath) (members : List FsPath)
    (p : FsPath) (fuel : Nat) (r : Option FsPath)
    (hnest : rootM.dropLast.isPrefixOf (normalize p).dropLast = false)
    (hroot : findRoot fs (normalize p) = .ok r)
    (hne : r ≠ some rootM) :
    findPathDepsF fs rootM (fuel + 1) members p true = .ok members := by
  show fpdStep fs rootM (findPathDepsF fs rootM fuel) members p true = .ok members
  by_cases hm : normalize p ∈ members
  · simp [fpdStep, hm]
  · have hb : (r != some rootM) = true := by simpa using hne
    simp [fpdStep, hm, hnest, hroot, hb]

/-- Fixture for the C4 witness: the workspace root `r`, and a foreign
directory `x` that declares its own `[workspace]` root. -/
def fs4 : FS :=
  [ (["r"], ⟨.Root none [], some ⟨"r", [["x"]]⟩⟩),
    (["x"], ⟨.Root none [], some ⟨"x", []⟩⟩) ]

theorem c4_foreign_path_dep_not_added_witness :
    (["r"] : FsPath).isPrefixOf (normalize ["x", "Cargo.toml"]).dropLast = false ∧
      findRoot fs4 (normalize ["x", "Cargo.toml"]) = .ok (some ["x", "Cargo.toml"]) ∧
      findPathDepsF fs4 ["r", "Cargo.toml"] 3 [["r", "Cargo.toml"]] ["x", "Cargo.toml"] true =
        .ok [["r", "Cargo.toml"]] :=
  ⟨by decide, by decide,
    c4_foreign_path_dep_not_added fs4 ["r", "Cargo.toml"] [["r", "Cargo.toml"]]
      ["x", "Cargo.toml"] 2 (some ["x", "Cargo.toml"]) (by decide) (by decide) (by decide)⟩

/-- C8: an explicit member pattern whose glob expansion over the
filesystem matches nothing is retained literally: the pattern joined to
the root directory stays in the expanded candidate list, and its manifest
path (with the manifest filename appended) is among the candidate manifest
paths that `find_members` feeds to `find_path_deps`. -/
theorem c8_zero_glob_retained_literally (fs : FS) (rootM : FsPath) (list : List FsPath)
    (pat : FsPath) (hmem : pat ∈ list)
    (hempty : expand_member_path fs (rootM.dropLast ++ pat) = []) :
    (rootM.dropLast ++ pat) ∈ expandedList fs rootM.dropLast list ∧
      ((rootM.dropLast ++ pat) ++ [cargoToml]) ∈ memberManifestCandidates fs rootM list := by
  have h1 : (rootM.dropLast ++ pat) ∈ expandedList fs rootM.dropLast list := by
    unfold expandedList
    rw [List.mem_flatMap]
    exact ⟨pat, hmem, by simp [hempty]⟩
  exact ⟨h1, List.mem_map_of_mem _ h1⟩

/-- Fixture for the C8 witness: a root whose member list holds the pattern
`nomatch-*`, which matches no directory of the filesystem. -/
def fs8 : FS :=
  [ (["r"], ⟨.Root (some [["nomatch-*"]]) [], none⟩),
    (["r", "real"], ⟨.Member none, some ⟨"real", []⟩⟩) ]

theorem c8_zero_glob_retained_literally_witness :
    expand_member_path fs8 ((["r", "Cargo.toml"] : FsPath).dropLast ++ ["nomatch-*"]) = [] ∧
      ((["r", "Cargo.toml"] : FsPath).dropLast ++ ["nomatch-*"]) ++ [cargoToml] ∈
        memberManifestCandidates fs8 ["r", "Cargo.toml"] [["nomatch-*"]] :=
  ⟨by decide,
    (c8_zero_glob_retained_literally fs8 ["r", "Cargo.toml"] [["nomatch-*"]] ["nomatch-*"]
      (by decide) (by decide)).2⟩

/-- Fixture for C2: a workspace whose two members are both concrete
packages named `foo` and neither is configured as a root, so the workspace
violates both the name-uniqueness and the root-count invariant. -/
def fs2 : FS :=
  [ (["r"], ⟨.Root (some [["a"], ["b"]]) [], none⟩),
    (["r", "a"], ⟨.Member none, some ⟨"foo", []⟩⟩),
    (["r", "b"], ⟨.Member none, some ⟨"foo", []⟩⟩) ]

/-- C2 counterexample: on a workspace that violates both the root-count
invariant (zero roots among the members) and name uniqueness (two members
named `foo`), `validate` reports the duplicate-name error, not the
root-count error the claim asserts: the name check runs inside the loop
that collects the roots, before the root count is examined. -/
theorem c2_counterexample_duplicate_name_first :
    validate fs2 ["r", "a", "Cargo.toml"] (some ["r", "Cargo.toml"])
        [["r", "a", "Cargo.toml"], ["r", "b", "Cargo.toml"]] =
      .error (.duplicateName "foo" ["r", "a", "Cargo.toml"] ["r", "b", "Cargo.toml"]) ∧
      validate fs2 ["r", "a", "Cargo.toml"] (some ["r", "Cargo.toml"])
        [["r", "a", "Cargo.toml"], ["r", "b", "Cargo.toml"]] ≠
      .error (.noRootConfigured ["r", "a", "Cargo.toml"] ["r", "Cargo.toml"]) := by
  decide

/-- C2 (amended): `validate` interleaves the name-uniqueness check with
the collection of the member roots, in one pass that precedes the
root-count decision; any error of that pass — in particular a
duplicate-name error — is the error `validate` reports, so a workspace
violating both invariants reports the duplicate-name error rather than the
root-count error. -/
theorem c2_names_checked_before_root_count (fs : FS) (cur rootM : FsPath)
    (members : List FsPath) (e : WsError)
    (h : collectRootsNames fs members [] [] = .error e) :
    validate fs cur (some rootM) members = .error e := by
  simp [validate, h]

theorem c2_names_checked_before_root_count_witness :
    collectRootsNames fs2 [["r", "a", "Cargo.toml"], ["r", "b", "Cargo.toml"]] [] [] =
      .error (.duplicateName "foo" ["r", "a", "Cargo.toml"] ["r", "b", "Cargo.toml"]) ∧
      validate fs2 ["r", "a", "Cargo.toml"] (some ["r", "Cargo.toml"])
        [["r", "a", "Cargo.toml"], ["r", "b", "Cargo.toml"]] =
      .error (.duplicateName "foo" ["r", "a", "Cargo.toml"] ["r", "b", "Cargo.toml"]) :=
  ⟨by decide,
    c2_names_checked_before_root_count fs2 ["r", "a", "Cargo.toml"] ["r", "Cargo.toml"]
      [["r", "a", "Cargo.toml"], ["r", "b", "Cargo.toml"]]
      (.duplicateName "foo" ["r", "a", "Cargo.toml"] ["r", "b", "Cargo.toml"]) (by decide)⟩

theorem findRootLoop_cons_skip (fs : FS) (orig d : FsPath) (rest : List FsPath)
    (hd : skipsDir fs orig d = true) :
    findRootLoop fs orig (d :: rest) = findRootLoop fs orig rest := by
  unfold skipsDir at hd
  rw [findRootLoop]
  cases hl : lookupDir fs d with
  | none => simp
  | some m =>
    rw [hl] at hd
    simp only [] at hd
    cases hcfg : m.config with
    | Root ms ex =>
      rw [hcfg] at hd
      simp at hd
      simp [hcfg, hd]
    | Member o =>
      cases o with
      | none => simp [hcfg]
      | some q => rw [hcfg] at hd; simp at hd

theorem findRootLoop_skips (fs : FS) (orig : FsPath) (pre : List FsPath)
    (h : ∀ d ∈ pre, skipsDir fs orig d = true) (rest : List FsPath) :
    findRootLoop fs orig (pre ++ rest) = findRootLoop fs orig rest := by
  induction pre with
  | nil => simp
  | cons d t ih =>
    have hd := h d (by simp)
    have ht : ∀ x ∈ t, skipsDir fs orig x = true := fun x hx => h x (by simp [hx])
    rw [List.cons_append, findRootLoop_cons_skip fs orig d (t ++ rest) hd]
    exact ih ht

/-- C3: during the ancestry climb of `findRoot` for a manifest with no
root declaration and no pointer, every ancestor directory that skips the
search — including, in particular, one whose manifest is a root
declaration that excludes the original manifest — is passed over, and the
first later ancestor whose manifest is a non-excluding root declaration is
returned as the root. -/
theorem c3_excluded_root_candidate_skipped (fs : FS) (orig d1 d2 : FsPath)
    (pre rest : List FsPath) (m0 m1 m2 : Manifest)
    (ms1 ms2 : Option (List FsPath)) (ex1 ex2 : List FsPath)
    (h0 : load fs orig = .ok m0) (hc0 : m0.config = .Member none)
    (hanc : (ancestors orig).drop 2 = pre ++ d2 :: rest)
    (hd1 : d1 ∈ pre)
    (h1 : lookupDir fs d1 = some m1) (hc1 : m1.config = .Root ms1 ex1)
    (hexc : is_excluded ms1 ex1 d1 orig = true)
    (hpre : ∀ d ∈ pre, skipsDir fs orig d = true)
    (h2 : lookupDir fs d2 = some m2) (hc2 : m2.config = .Root ms2 ex2)
    (hnot : is_excluded ms2 ex2 d2 orig = false) :
    findRoot fs orig = .ok (some (d2 ++ [cargoToml])) := by
  have hstart : findRoot fs orig = findRootLoop fs orig ((ancestors orig).drop 2) := by
    simp [findRoot, h0, hc0]
  rw [hstart, hanc, findRootLoop_skips fs orig pre hpre, findRootLoop, h2]
  simp [hc2, hnot]

/-- Fixture for the C3 witness: the manifest at `a/b/c` is excluded (via
the exclude pattern `c`) by the root declaration at `a/b`, while the
grandparent `a` is a non-excluding root declaration. -/
def fs3 : FS :=
  [ (["a", "b", "c"], ⟨.Member none, some ⟨"c", []⟩⟩),
    (["a", "b"], ⟨.Root none [["c"]], none⟩),
    (["a"], ⟨.Root none [], none⟩) ]

theorem c3_excluded_root_candidate_skipped_witness :
    is_excluded none [["c"]] ["a", "b"] ["a", "b", "c", "Cargo.toml"] = true ∧
      findRoot fs3 ["a", "b", "c", "Cargo.toml"] = .ok (some (["a"] ++ [cargoToml])) :=
  ⟨by decide,
    c3_excluded_root_candidate_skipped fs3 ["a", "b", "c", "Cargo.toml"] ["a", "b"] ["a"]
      [["a", "b"]] [[]] ⟨.Member none, some ⟨"c", []⟩⟩ ⟨.Root none [["c"]], none⟩
      ⟨.Root none [], none⟩ none none [["c"]] []
      (by decide) rfl (by decide) (by decide) (by decide) rfl (by decide)
      (fun d hd => by
        have : d = ["a", "b"] := by simpa using hd
        subst this
        decide)
      (by decide) rfl (by decide)⟩

theorem findRootLoop_all_skipped (fs : FS) (orig : FsPath) (l : List FsPath)
    (h : ∀ d ∈ l, skipsDir fs orig d = true) :
    findRootLoop fs orig l = .ok none := by
  have := findRootLoop_skips fs orig l h []
  simpa using this

/-- C7: an entry manifest that is a pointerless member declaration, none
of whose ancestor directories holds a manifest other than pointerless
member declarations, has no root: `findRoot` returns `none`, and
`findMembers` for an absent root produces exactly the singleton member
set holding the entry manifest. -/
theorem c7_standalone_entry (fs : FS) (entry : FsPath) (m : Manifest)
    (h : load fs entry = .ok m) (hc : m.config = .Member none)
    (hanc : ∀ d ∈ (ancestors entry).drop 2,
      lookupDir fs d = none ∨ ∃ m', lookupDir fs d = some m' ∧ m'.config = .Member none) :
    findRoot fs entry = .ok none ∧ findMembers fs entry none = .ok [entry] := by
  refine ⟨?_, rfl⟩
  have hstart : findRoot fs entry = findRootLoop fs entry ((ancestors entry).drop 2) := by
    simp [findRoot, h, hc]
  rw [hstart]
  apply findRootLoop_all_skipped
  intro d hd
  rcases hanc d hd with h0 | ⟨m', hm', hcm'⟩
  · simp [skipsDir, h0]
  · simp [skipsDir, hm', hcm']

/-- Fixture for the C7 witness: a lone package at `q/p` with no workspace
configuration anywhere above it. -/
def fs7 : FS := [ (["q", "p"], ⟨.Member none, some ⟨"p", []⟩⟩) ]

theorem c7_standalone_entry_witness :
    load fs7 ["q", "p", "Cargo.toml"] = .ok ⟨.Member none, some ⟨"p", []⟩⟩ ∧
      findRoot fs7 ["q", "p", "Cargo.toml"] = .ok none ∧
      findMembers fs7 ["q", "p", "Cargo.toml"] none = .ok [["q", "p", "Cargo.toml"]] := by
  have hanc : ∀ d ∈ (ancestors (["q", "p", "Cargo.toml"] : FsPath)).drop 2,
      lookupDir fs7 d = none ∨
        ∃ m', lookupDir fs7 d = some m' ∧ m'.config = .Member none := by
    intro d hd
    have hl : (ancestors (["q", "p", "Cargo.toml"] : FsPath)).drop 2 = [["q"], []] := by
      decide
    rw [hl] at hd
    simp at hd
    rcases hd with h | h <;> subst h <;> exact Or.inl (by decide)
  have happ := c7_standalone_entry fs7 ["q", "p", "Cargo.toml"]
    ⟨.Member none, some ⟨"p", []⟩⟩ (by decide) rfl hanc
  exact ⟨by decide, happ.1, happ.2⟩

theorem length_filter_le_of_imp {α : Type} (l : List α) (p q : α → Bool)
    (h : ∀ a ∈ l, p a = true → q a = true) :
    (l.filter p).length ≤ (l.filter q).length := by
  induction l with
  | nil => simp
  | cons a t ih =>
    have ht : ∀ x ∈ t, p x = true → q x = true := fun x hx => h x (by simp [hx])
    have iht := ih ht
    by_cases hp : p a = true
    · have hq := h a (by simp) hp
      simp only [List.filter_cons, hp, hq, if_true]
      simpa using iht
    · have hp' : p a = false := by simpa using hp
      cases hq : q a <;> simp only [List.filter_cons, hp', hq] <;> simp <;> omega

theorem length_filter_lt_of_flip {α : Type} (l : List α) (p q : α → Bool)
    (h : ∀ a ∈ l, p a = true → q a = true) (x : α) (hx : x ∈ l)
    (hqx : q x = true) (hpx : p x = false) :
    (l.filter p).length < (l.filter q).length := by
  induction l with
  | nil => simp at hx
  | cons a t ih =>
    have ht : ∀ y ∈ t, p y = true → q y = true := fun y hy => h y (by simp [hy])
    rcases List.mem_cons.mp hx with rfl | hxt
    · have hle := length_filter_le_of_imp t p q ht
      simp only [List.filter_cons, hpx, hqx, if_true]
      simp
      omega
    · have iht := ih ht hxt
      by_cases hp : p a = true
      · have hq := h a (by simp) hp
        simp only [List.filter_cons, hp, hq, if_true]
        simpa using iht
      · have hp' : p a = false := by simpa using hp
        cases hq : q a <;> simp only [List.filter_cons, hp', hq] <;> simp <;> omega

theorem countFree_le_of_contains_imp (fs : FS) (ms ms' : List FsPath)
    (h : ∀ x, ms.contains x = true → ms'.contains x = true) :
    countFree fs ms' ≤ countFree fs ms := by
  apply length_filter_le_of_imp
  intro d _ hp
  cases hms : ms.contains (d ++ [cargoToml]) with
  | false => simp
  | true =>
    have h2 := h _ hms
    rw [h2] at hp
    exact absurd hp (by decide)

theorem countFree_le_append (fs : FS) (ms t : List FsPath) :
    countFree fs (ms ++ t) ≤ countFree fs ms := by
  apply countFree_le_of_contains_imp
  intro x hx
  simp at hx ⊢
  exact Or.inl hx

theorem countFree_push_lt (fs : FS) (ms : List FsPath) (d0 : FsPath)
    (hmem : d0 ∈ fs.map Prod.fst)
    (hnew : ms.contains (d0 ++ [cargoToml]) = false) :
    countFree fs (ms ++ [d0 ++ [cargoToml]]) < countFree fs ms := by
  refine length_filter_lt_of_flip _ _ _ ?_ d0 hmem ?_ ?_
  · intro a _ hp
    cases hms : ms.contains (a ++ [cargoToml]) with
    | false => simp
    | true =>
      have h2 : (ms ++ [d0 ++ [cargoToml]]).contains (a ++ [cargoToml]) = true := by
        simp at hms ⊢
        exact Or.inl hms
      rw [h2] at hp
      exact absurd hp (by decide)
  · rw [hnew]; rfl
  · have h3 : (ms ++ [d0 ++ [cargoToml]]).contains (d0 ++ [cargoToml]) = true := by simp
    rw [h3]; rfl

theorem countFree_le_length (fs : FS) (ms : List FsPath) : countFree fs ms ≤ fs.length := by
  calc countFree fs ms ≤ (fs.map Prod.fst).length := List.length_filter_le _ _
    _ = fs.length := by simp

theorem normalize_concat_toml (xs : FsPath) :
    normalize (xs ++ [cargoToml]) = normalize xs ++ [cargoToml] := by
  simp [normalize, List.foldl_append, cargoToml]

theorem load_ok_dir_mem (fs : FS) (p : FsPath) (m : Manifest)
    (h : load fs p = .ok m) : p.dropLast ∈ fs.map Prod.fst := by
  unfold load at h
  cases hl : lookupDir fs p.dropLast with
  | none => rw [hl] at h; cases h
  | some m' =>
    unfold lookupDir at hl
    cases hf : fs.find? (fun e => e.1 == p.dropLast) with
    | none => rw [hf] at hl; cases hl
    | some e =>
      have hmem := List.mem_of_find?_eq_some hf
      have hpred := List.find?_some hf
      have : e.1 = p.dropLast := by simpa using hpred
      rw [← this]
      exact List.mem_map_of_mem _ hmem

theorem load_no_fuel_error (fs : FS) (p : FsPath) : load fs p ≠ .error .outOfFuel := by
  unfold load
  cases lookupDir fs p.dropLast <;> simp

theorem findRootLoop_is_ok (fs : FS) (orig : FsPath) (l : List FsPath) :
    ∃ o, findRootLoop fs orig l = .ok o := by
  induction l with
  | nil => exact ⟨none, rfl⟩
  | cons d t ih =>
    rw [findRootLoop]
    cases hl : lookupDir fs d with
    | none => simpa using ih
    | some m =>
      cases hcfg : m.config with
      | Root ms ex =>
        by_cases hexc : is_excluded ms ex d orig = true
        · simpa [hcfg, hexc] using ih
        · have hexc' : is_excluded ms ex d orig = false := by simpa using hexc
          exact ⟨some (d ++ [cargoToml]), by simp [hcfg, hexc']⟩
      | Member o =>
        cases o with
        | none => simpa [hcfg] using ih
        | some q => exact ⟨some (read_root_pointer (d ++ [cargoToml]) q), by simp [hcfg]⟩

theorem fpdList_grows (r : List FsPath → FsPath → Bool → Except WsError (List FsPath))
    (b : Bool) (hr : ∀ ms c ms₂, r ms c b = .ok ms₂ → ms <+: ms₂) :
    ∀ (l ms ms'), fpdList r b ms l = .ok ms' → ms <+: ms' := by
  intro l
  induction l with
  | nil =>
    intro ms ms' h
    simp only [fpdList] at h
    cases h
    exact ⟨[], List.append_nil _⟩
  | cons c cs ih =>
    intro ms ms' h
    simp only [fpdList] at h
    cases hr0 : r ms c b with
    | error e => rw [hr0] at h; cases h
    | ok ms₁ =>
      rw [hr0] at h
      exact (hr ms c ms₁ hr0).trans (ih ms₁ ms' h)

theorem fpd_grows (fs : FS) (rootM : FsPath) :
    ∀ (fuel : Nat) (ms : List FsPath) (mp : FsPath) (b : Bool) (ms' : List FsPath),
      findPathDepsF fs rootM fuel ms mp b = .ok ms' → ms <+: ms' := by
  intro fuel
  induction fuel with
  | zero =>
    intro ms mp b ms' h
    simp [findPathDepsF] at h
  | succ n ih =>
    intro ms mp b ms' h
    have hstep : fpdStep fs rootM (findPathDepsF fs rootM n) ms mp b = .ok ms' := h
    simp only [fpdStep] at hstep
    split at hstep
    · cases hstep; exact ⟨[], List.append_nil _⟩
    · split at hstep
      · cases hstep
      · cases hstep; exact ⟨[], List.append_nil _⟩
      · split at hstep
        · cases hstep
        · split at hstep
          · cases hstep; exact ⟨[], List.append_nil _⟩
          · split at hstep
            · cases hstep
            · split at hstep
              · cases hstep
                exact ⟨[normalize mp], rfl⟩
              · exact (show ms <+: ms ++ [normalize mp] from ⟨[normalize mp], rfl⟩).trans
                  (fpdList_grows (findPathDepsF fs rootM n) true
                    (fun a c m hy => ih a c true m hy) _ _ _ hstep)

theorem findRoot_no_fuel_error (fs : FS) (p : FsPath) :
    findRoot fs p ≠ .error .outOfFuel := by
  unfold findRoot
  cases hl : load fs p with
  | error e =>
    have := load_no_fuel_error fs p
    rw [hl] at this
    simpa using this
  | ok m =>
    cases hcfg : m.config with
    | Root ms ex => simp [hcfg]
    | Member o =>
      cases o with
      | some q => simp [hcfg]
      | none =>
        obtain ⟨o, ho⟩ := findRootLoop_is_ok fs p ((ancestors p).drop 2)
        simp [hcfg, ho]

theorem fpdList_enough_fuel (fs : FS) (rootM : FsPath) (n : Nat)
    (ihn : ∀ ms xs b, countFree fs ms < n →
      findPathDepsF fs rootM n ms (xs ++ [cargoToml]) b ≠ .error .outOfFuel) :
    ∀ (cands ms : List FsPath),
      (∀ c ∈ cands, ∃ xs, c = xs ++ [cargoToml]) →
      countFree fs ms < n →
      fpdList (findPathDepsF fs rootM n) true ms cands ≠ .error .outOfFuel := by
  intro cands
  induction cands with
  | nil =>
    intro ms _ _ h
    simp [fpdList] at h
  | cons c cs ih =>
    intro ms hform hlt h
    obtain ⟨xs, rfl⟩ := hform c (by simp)
    simp only [fpdList] at h
    cases hr : findPathDepsF fs rootM n ms (xs ++ [cargoToml]) true with
    | error e =>
      rw [hr] at h
      simp only [] at h
      cases h
      exact ihn ms xs true hlt hr
    | ok ms₁ =>
      rw [hr] at h
      have hgrow := fpd_grows fs rootM n ms (xs ++ [cargoToml]) true ms₁ hr
      obtain ⟨t, rfl⟩ := hgrow
      have hle := countFree_le_append fs ms t
      exact ih (ms ++ t) (fun c hc => hform c (by simp [hc]))
        (lt_of_le_of_lt hle hlt) h

theorem fpd_enough_fuel_concat (fs : FS) (rootM : FsPath) :
    ∀ (fuel : Nat) (ms : List FsPath) (xs : FsPath) (b : Bool),
      countFree fs ms < fuel →
      findPathDepsF fs rootM fuel ms (xs ++ [cargoToml]) b ≠ .error .outOfFuel := by
  intro fuel
  induction fuel with
  | zero =>
    intro ms xs b hlt
    exact absurd hlt (Nat.not_lt_zero _)
  | succ n ih =>
    intro ms xs b hlt h
    have hstep : fpdStep fs rootM (findPathDepsF fs rootM n) ms (xs ++ [cargoToml]) b =
        .error .outOfFuel := h
    simp only [fpdStep] at hstep
    split at hstep
    · cases hstep
    · rename_i hmem
      split at hstep
      · -- foreign check produced an error
        rename_i heq
        cases hstep
        split at heq
        · split at heq
          · rename_i hfr
            cases heq
            exact findRoot_no_fuel_error fs _ hfr
          · cases heq
        · cases heq
      · cases hstep
      · split at hstep
        · -- loading the root manifest failed
          rename_i heq
          cases hstep
          exact load_no_fuel_error fs rootM heq
        · split at hstep
          · cases hstep
          · split at hstep
            · -- loading the pushed manifest failed
              rename_i heq
              cases hstep
              exact load_no_fuel_error fs _ heq
            · rename_i record hload
              split at hstep
              · cases hstep
              · -- the recursive walk over the path dependencies
                have hmpn : normalize (xs ++ [cargoToml]) = normalize xs ++ [cargoToml] :=
                  normalize_concat_toml xs
                have hdir := load_ok_dir_mem fs (normalize (xs ++ [cargoToml])) record hload
                have hdrop : (normalize (xs ++ [cargoToml])).dropLast = normalize xs := by
                  rw [hmpn]
                  exact List.dropLast_concat
                rw [hdrop] at hdir
                have hnew : ms.contains (normalize (xs ++ [cargoToml])) = false := by
                  simpa using hmem
                have hlt2 : countFree fs (ms ++ [normalize (xs ++ [cargoToml])]) <
                    countFree fs ms := by
                  rw [hmpn]
                  exact countFree_push_lt fs ms (normalize xs) hdir (hmpn ▸ hnew)
                have hlt3 : countFree fs (ms ++ [normalize (xs ++ [cargoToml])]) < n := by
                  omega
                refine fpdList_enough_fuel fs rootM n ih _ _ ?_ hlt3 hstep
                intro c hc
                obtain ⟨p, _, rfl⟩ := List.mem_map.mp hc
                exact ⟨p, rfl⟩

theorem fpd_enough_fuel (fs : FS) (rootM : FsPath) (fuel : Nat) (ms : List FsPath)
    (mp : FsPath) (b : Bool) (hlt : countFree fs ms + 1 < fuel) :
    findPathDepsF fs rootM fuel ms mp b ≠ .error .outOfFuel := by
  cases fuel with
  | zero => exact absurd hlt (Nat.not_lt_zero _)
  | succ n =>
    intro h
    have hstep : fpdStep fs rootM (findPathDepsF fs rootM n) ms mp b =
        .error .outOfFuel := h
    simp only [fpdStep] at hstep
    split at hstep
    · cases hstep
    · split at hstep
      · rename_i heq
        cases hstep
        split at heq
        · split at heq
          · rename_i hfr
            cases heq
            exact findRoot_no_fuel_error fs _ hfr
          · cases heq
        · cases heq
      · cases hstep
      · split at hstep
        · rename_i heq
          cases hstep
          exact load_no_fuel_error fs rootM heq
        · split at hstep
          · cases hstep
          · split at hstep
            · rename_i heq
              cases hstep
              exact load_no_fuel_error fs _ heq
            · split at hstep
              · cases hstep
              · have hle := countFree_le_append fs ms [normalize mp]
                have hlt3 : countFree fs (ms ++ [normalize mp]) < n := by omega
                refine fpdList_enough_fuel fs rootM n
                  (fpd_enough_fuel_concat fs rootM n) _ _ ?_ hlt3 hstep
                intro c hc
                obtain ⟨p, _, rfl⟩ := List.mem_map.mp hc
                exact ⟨p, rfl⟩

/-- Fixture for C5: packages `a` (the workspace root) and `a/b` with path
dependencies on each other, forming a dependency cycle. -/
def fs5 : FS :=
  [ (["a"], ⟨.Root none [], some ⟨"a", [["a", "b"]]⟩⟩),
    (["a", "b"], ⟨.Member none, some ⟨"b", [["a"]]⟩⟩) ]

/-- C5: `find_path_deps` terminates on every finite manifest graph: any
fuel exceeding the number of not-yet-member manifest directories is never
exhausted (the membership check stops re-visits before any recursion),
and on the cyclic two-package fixture discovery from either starting
point yields the same two-element member set with no infinite
recursion. -/
theorem c5_terminates_and_cycle_safe :
    (∀ (fs : FS) (rootM : FsPath) (fuel : Nat) (ms : List FsPath) (mp : FsPath) (b : Bool),
        countFree fs ms + 1 < fuel →
        findPathDepsF fs rootM fuel ms mp b ≠ .error .outOfFuel) ∧
      findPathDepsF fs5 ["a", "Cargo.toml"] (defaultFuel fs5) [] ["a", "Cargo.toml"] false =
        .ok [["a", "Cargo.toml"], ["a", "b", "Cargo.toml"]] ∧
      findPathDepsF fs5 ["a", "Cargo.toml"] (defaultFuel fs5) [] ["a", "b", "Cargo.toml"] false =
        .ok [["a", "b", "Cargo.toml"], ["a", "Cargo.toml"]] ∧
      ([["a", "Cargo.toml"], ["a", "b", "Cargo.toml"]] : List FsPath).toFinset =
        ([["a", "b", "Cargo.toml"], ["a", "Cargo.toml"]] : List FsPath).toFinset :=
  ⟨fun fs rootM fuel ms mp b hlt => fpd_enough_fuel fs rootM fuel ms mp b hlt,
    by decide, by decide, by decide⟩

theorem c5_terminates_and_cycle_safe_witness :
    countFree fs5 [] + 1 < defaultFuel fs5 ∧
      findPathDepsF fs5 ["a", "Cargo.toml"] (defaultFuel fs5) [] ["a", "b", "Cargo.toml"] true ≠
        .error .outOfFuel :=
  ⟨by decide,
    c5_terminates_and_cycle_safe.1 fs5 ["a", "Cargo.toml"] (defaultFuel fs5) []
      ["a", "b", "Cargo.toml"] true (by decide)⟩

end CargoWs
